import Mathlib

/-!
Verification of the LogChirpy bird-image acquisition pipeline
(`dev/image_getters/bird_image_fetcher.py`) against its specification.

Strings are modelled as `List Char`; Python's substring test (`in`) is
the function `subIn`.  For the keyword matching of the search pipeline
(all-lowercase ASCII keywords) lowercasing is modelled per character with
`Char.toLower`; for the filename sanitizers, where whole-string versus
per-character lowering matters, CPython's `str.lower()` is modelled by
`pyLower`, which keeps the Unicode tables abstract (a cased test, a
case-ignorable test and a context-free lowering map are parameters) but
implements CPython's context-sensitive final-sigma rule for `'Σ'`
exactly.  Python's Unicode `str.isalnum` is likewise kept abstract as a
parameter `p : Char → Bool`.  The fractional arithmetic
of the source (`* 1.25`, `* 1.1`, `size / 1_000_000` capped at 5) is made
exact by integer scaling: pixel comparisons are cross-multiplied and final
scores are scaled by 1 000 000.
-/

/-- A raw search hit as returned by `_search_commons_images`
(title, snippet and declared byte size). -/
structure Hit where
  title : List Char
  snippet : List Char
  size : ℕ
  deriving DecidableEq, Repr

/-- A hit that survived `_filter_bird_images`, carrying the
`quality_score` that the filter attaches. -/
structure SHit where
  title : List Char
  snippet : List Char
  size : ℕ
  quality_score : ℕ
  deriving DecidableEq, Repr

/-- A fully scored candidate as produced by
`_deduplicate_and_score_results`; `final_score` is the source's float
score scaled by 1 000 000 so it stays an exact natural number. -/
structure FHit where
  title : List Char
  snippet : List Char
  size : ℕ
  quality_score : ℕ
  final_score : ℕ
  deriving DecidableEq, Repr

/-- Per-character lowercasing, modelling Python `str.lower()`. -/
def lowerL (s : List Char) : List Char := s.map Char.toLower

/-- Python's substring test `w in s`: `w` occurs contiguously in `s`
(the empty string occurs in everything, as in Python). -/
def subIn (w : List Char) : List Char → Bool
  | [] => w.isEmpty
  | c :: rest => w.isPrefixOf (c :: rest) || subIn w rest

/-- The `bad_keywords` disallow-list of `_filter_bird_images`
(source lines 148–155), verbatim. -/
def bad_keywords : List (List Char) :=
  (["egg", "eggs", "nest", "nesting", "map", "distribution", "range",
    "footprint", "track", "tracks", "feather", "feathers", "skeleton",
    "diagram", "chart", "graph", "illustration", "drawing", "painting",
    "museum", "specimen", "skull", "bone", "wing", "tail", "beak",
    "habitat", "environment", "landscape", "migration", "call", "song",
    "sound", "audio", "spectrogram", "analysis", "study",
    "research"] : List String).map (fun s => s.toList)

/-- The fixed part of the `good_keywords` allow-list of
`_filter_bird_images` (source lines 158–162); the scientific name is
appended by `good_keywords`. -/
def good_base_keywords : List (List Char) :=
  (["male", "female", "adult", "juvenile", "breeding", "plumage",
    "portrait", "photo", "photograph", "bird", "flying", "perched",
    "sitting", "standing", "feeding", "foraging"] : List String).map
    (fun s => s.toList)

/-- The full allow-list: the fixed keywords plus `scientific_name.lower()`. -/
def good_keywords (sci : List Char) : List (List Char) :=
  good_base_keywords ++ [lowerL sci]

/-- The quality-indicator patterns of `_deduplicate_and_score_results`
(source line 201). -/
def score_patterns : List (List Char) :=
  (["male", "female", "adult", "portrait"] : List String).map
    (fun s => s.toList)

/-- Python `w in title or w in snippet` on already-lowercased text. -/
def matchesIn (w title snippet : List Char) : Bool :=
  subIn w title || subIn w snippet

/-- The rejection test of `_filter_bird_images` (source line 170). -/
def hasBadKeyword (title snippet : List Char) : Bool :=
  bad_keywords.any (fun w => matchesIn w title snippet)

/-- The `good_score` computation of `_filter_bird_images`
(source line 174): one point per allow-list term found in title or
snippet. -/
def qualityScore (sci title snippet : List Char) : ℕ :=
  (good_keywords sci).countP (fun w => matchesIn w title snippet)

/-- `_filter_bird_images` (source lines 145–179): drop any hit whose
lowered title or snippet contains a disallow term, attach
`quality_score` to the survivors. -/
def filter_bird_images (results : List Hit) (sci : List Char) : List SHit :=
  results.filterMap (fun r =>
    if hasBadKeyword (lowerL r.title) (lowerL r.snippet) then none
    else some { title := r.title, snippet := r.snippet, size := r.size,
                quality_score :=
                  qualityScore sci (lowerL r.title) (lowerL r.snippet) })

/-- The seen-titles deduplication of `_deduplicate_and_score_results`
(source lines 183–189): keep the first occurrence of each title. -/
def dedupGo (seen : List (List Char)) : List SHit → List SHit
  | [] => []
  | r :: rs =>
    if r.title ∈ seen then dedupGo seen rs
    else r :: dedupGo (r.title :: seen) rs

/-- Same deduplication on scored candidates (used to state that scoring
commutes with deduplication). -/
def dedupFGo (seen : List (List Char)) : List FHit → List FHit
  | [] => []
  | r :: rs =>
    if r.title ∈ seen then dedupFGo seen rs
    else r :: dedupFGo (r.title :: seen) rs

/-- The `final_score` computation of `_deduplicate_and_score_results`
(source lines 192–208), scaled by 1 000 000: `quality_score`, +10 for the
scientific name verbatim in the lowered title, +5 for a quality pattern in
the title, plus `min(size / 1_000_000, 5)` which scales to
`min size 5000000`. -/
def final_score (sci : List Char) (r : SHit) : ℕ :=
  1000000 * (r.quality_score
    + (if subIn (lowerL sci) (lowerL r.title) then 10 else 0)
    + (if score_patterns.any (fun w => subIn w (lowerL r.title))
       then 5 else 0))
  + min r.size 5000000

/-- Attach the final score to a deduplicated candidate. -/
def scoreHit (sci : List Char) (r : SHit) : FHit :=
  { title := r.title, snippet := r.snippet, size := r.size,
    quality_score := r.quality_score, final_score := final_score sci r }

/-- Descending lexicographic comparison on `(final_score, size)`,
the sort key of `_deduplicate_and_score_results` (source lines 211–213,
`key=lambda x: (final_score, size)` with `reverse=True`). -/
def keyGE (a b : FHit) : Bool :=
  decide (b.final_score < a.final_score) ||
    (a.final_score == b.final_score && decide (b.size ≤ a.size))

/-- Stable descending insertion, placing `x` before the first element it
does not rank strictly below (equal keys keep original order, as Python's
stable sort does). -/
def insertRanked (x : FHit) : List FHit → List FHit
  | [] => [x]
  | y :: ys => if keyGE x y then x :: y :: ys else y :: insertRanked x ys

/-- Stable sort by descending `(final_score, size)`, modelling
`sorted(..., key=..., reverse=True)`. -/
def sortRanked : List FHit → List FHit
  | [] => []
  | x :: xs => insertRanked x (sortRanked xs)

/-- `_deduplicate_and_score_results` (source lines 181–213):
deduplicate by title, score, sort. -/
def deduplicate_and_score_results (results : List SHit) (sci : List Char) :
    List FHit :=
  sortRanked ((dedupGo [] results).map (scoreHit sci))

/-- The filter-and-score pipeline as composed by `search_bird_images`
(source lines 96 and 105): filter each batch, then deduplicate and
score the accumulated hits. -/
def search_pipeline (hits : List Hit) (sci : List Char) : List FHit :=
  deduplicate_and_score_results (filter_bird_images hits sci) sci

/-- `name.replace(' ', '_')`. -/
def replaceSpace (s : List Char) : List Char :=
  s.map (fun c => if c = ' ' then '_' else c)

/-- The character filter `c.isalnum() or c in '_-'`, with Python's
Unicode `isalnum` kept abstract as `p`. -/
def keepChar (p : Char → Bool) (c : Char) : Bool :=
  p c || decide (c = '_') || decide (c = '-')

/-- Skip case-ignorable characters and return the first remaining one —
the context scan of CPython's final-sigma rule. -/
def firstNonCI (ci : Char → Bool) : List Char → Option Char
  | [] => none
  | c :: rest => if ci c then firstNonCI ci rest else some c

/-- CPython's Final_Sigma context test (`handle_capital_sigma` in
`unicodeobject.c`): the nearest non-case-ignorable character before the
sigma exists and is cased, and the nearest non-case-ignorable character
after it is absent or not cased.  `before` lists the preceding
characters nearest-first. -/
def finalSigma (cased ci : Char → Bool) (before after : List Char) : Bool :=
  (match firstNonCI ci before with
   | none => false
   | some c => cased c) &&
  (match firstNonCI ci after with
   | none => true
   | some c => !cased c)

/-- One pass of CPython `str.lower()`: a capital sigma lowers to `'ς'`
in Final_Sigma context and to `'σ'` otherwise; every other character
lowers by the context-free (possibly multi-character) map `low`. -/
def pyLowerGo (cased ci : Char → Bool) (low : Char → List Char)
    (before : List Char) : List Char → List Char
  | [] => []
  | c :: rest =>
    (if c = 'Σ' then
      [if finalSigma cased ci before rest then 'ς' else 'σ']
     else low c) ++ pyLowerGo cased ci low (c :: before) rest

/-- CPython `str.lower()` over a whole string, with the Unicode cased /
case-ignorable predicates and the context-free lowercase map abstract,
and the context-sensitive final-sigma rule explicit. -/
def pyLower (cased ci : Char → Bool) (low : Char → List Char)
    (s : List Char) : List Char :=
  pyLowerGo cased ci low [] s

/-- `_sanitize_filename` (source lines 302–308): replace spaces with
underscores, strip periods and commas, keep only alphanumerics,
underscores and hyphens, then lowercase the WHOLE resulting string
(`safe_name.lower()`, line 308). -/
def sanitize_filename (p cased ci : Char → Bool) (low : Char → List Char)
    (name : List Char) : List Char :=
  pyLower cased ci low
    ((((replaceSpace name).filter (fun c => !(c == '.'))).filter
      (fun c => !(c == ','))).filter (keepChar p))

/-- The inline sanitization of the dry-run reporting path
(source line 567): replace spaces, then per kept character append
`c.lower()` — each character is lowered as a one-character string,
without the surrounding context. -/
def dry_run_safe_name (p cased ci : Char → Bool) (low : Char → List Char)
    (name : List Char) : List Char :=
  ((replaceSpace name).filter (keepChar p)).flatMap
    (fun c => pyLower cased ci low [c])

/-- A concrete stand-in for Python's `str.isalnum` agreeing with it on
ASCII and on the Greek letters used in the witnesses
(`isalnum` is true for `'Α'` and `'Σ'` in Python). -/
def demoAlnum : Char → Bool :=
  fun c => c.isAlphanum || decide (c = 'Α') || decide (c = 'Σ')

/-- A concrete stand-in for Unicode `Cased`, agreeing with it on ASCII
letters and the Greek letters used in the witnesses. -/
def demoCased : Char → Bool :=
  fun c => c.isAlpha || decide (c = 'Α') || decide (c = 'Σ') ||
    decide (c = 'α') || decide (c = 'σ') || decide (c = 'ς')

/-- A concrete stand-in for Unicode `Case_Ignorable`: none of the
characters used in the witnesses is case-ignorable. -/
def demoCI : Char → Bool := fun _ => false

/-- A concrete stand-in for the context-free Unicode lowercase map,
agreeing with it on ASCII and on `'Α' ↦ 'α'`. -/
def demoLow : Char → List Char :=
  fun c => if c = 'Α' then ['α'] else [c.toLower]

/-- The four overwrite policies of `--overwrite`. -/
inductive OwPolicy
  | never | always | ask | better
  deriving DecidableEq, Repr

/-- The parsed interactive answer of the `ask` policy
(`y…` / `a` / `n` / anything else). -/
inductive AskAnswer
  | yes | always | never | other
  deriving DecidableEq, Repr

/-- The existing on-disk artifact as inspected by
`_is_new_image_better`: pixel dimensions of the decoded existing image
and its encoded file size (`stat().st_size`). -/
structure ExistingArt where
  w : ℕ
  h : ℕ
  fileSize : ℕ
  deriving DecidableEq, Repr

/-- The freshly downloaded, already normalized candidate image:
pixel dimensions and `len(img.tobytes())`. -/
structure NewImg where
  w : ℕ
  h : ℕ
  rawBytes : ℕ
  deriving DecidableEq, Repr

/-- `_is_new_image_better` (source lines 338–367).  The source compares
`new_pixels > existing_pixels * 1.25` and
`new_file_size > existing_file_size * 1.1`; both are made exact by
cross-multiplication (5/4 and 11/10). -/
def is_new_image_better (webpExists jpgExists : Bool) (ex : ExistingArt)
    (img : NewImg) : Bool :=
  if !webpExists && !jpgExists then true
  else if 4 * (img.w * img.h) > 5 * (ex.w * ex.h) then true
  else decide (10 * img.rawBytes > 11 * ex.fileSize)

/-- The outcome of one `_should_overwrite_files` call: the decision,
the value written to the (never read) `self.overwrite_policy`
attribute, and whether the interactive prompt ran. -/
structure OwResult where
  decision : Bool
  policyWrite : Option OwPolicy
  prompted : Bool
  deriving DecidableEq, Repr

/-- `_should_overwrite_files` (source lines 310–336).  In the `ask`
branch the source assigns `self.overwrite_policy` on answers `a`/`n`;
that assignment is recorded in `policyWrite`. -/
def should_overwrite_files (policy : OwPolicy) (webpExists jpgExists : Bool)
    (ex : ExistingArt) (img : NewImg) (ans : AskAnswer) : OwResult :=
  if !webpExists && !jpgExists then ⟨true, none, false⟩
  else
    match policy with
    | .never => ⟨false, none, false⟩
    | .always => ⟨true, none, false⟩
    | .ask =>
      match ans with
      | .always => ⟨true, some .always, true⟩
      | .never => ⟨false, some .never, true⟩
      | .yes => ⟨true, none, true⟩
      | .other => ⟨false, none, true⟩
    | .better => ⟨is_new_image_better webpExists jpgExists ex img, none, false⟩

/-- Session state over a run with the `ask` policy: the (dead)
`self.overwrite_policy` attribute, the number of prompts issued, and the
sequence of overwrite decisions. -/
structure AskSession where
  policyAttr : Option OwPolicy
  prompts : ℕ
  decisions : List Bool
  deriving DecidableEq, Repr

/-- One overwrite decision per species, as driven by `main`
(source lines 619–621): every call receives the constant `args.overwrite`
policy — the attribute written by the `ask` branch is never read.
`species` lists `(webp_exists, jpg_exists)` per species; `answers` is the
queue of interactive answers, consumed only when a prompt runs. -/
def session_run (argsPolicy : OwPolicy) (ex : ExistingArt) (img : NewImg) :
    List (Bool × Bool) → List AskAnswer → AskSession → AskSession
  | [], _, st => st
  | sp :: rest, answers, st =>
    let r := should_overwrite_files argsPolicy sp.1 sp.2 ex img
      (answers.headD AskAnswer.other)
    session_run argsPolicy ex img rest
      (if r.prompted then answers.tail else answers)
      { policyAttr :=
          (match r.policyWrite with | some q => some q | none => st.policyAttr),
        prompts := st.prompts + (if r.prompted then 1 else 0),
        decisions := st.decisions ++ [r.decision] }

/-- Which image files exist on disk for a species. -/
structure Disk where
  webpExists : Bool
  jpgExists : Bool
  deriving DecidableEq, Repr

/-- The primary (webp) artifact filename for a species. -/
def webpFilenameOf (p cased ci : Char → Bool) (low : Char → List Char)
    (sci : List Char) : List Char :=
  sanitize_filename p cased ci low sci ++ (".webp" : String).toList

/-- The fallback (jpg) artifact filename for a species. -/
def jpgFilenameOf (p cased ci : Char → Bool) (low : Char → List Char)
    (sci : List Char) : List Char :=
  sanitize_filename p cased ci low sci ++ (".jpg" : String).toList

/-- The decision-and-write portion of `download_and_process_image`
(source lines 254–295): reject an undersized image, otherwise consult
`_should_overwrite_files`; on a positive decision both artifacts are
written, on a negative decision nothing is written — and either way the
webp filename is returned. -/
def download_and_process_image (p cased ci : Char → Bool)
    (low : Char → List Char) (sci : List Char)
    (d : Disk) (policy : OwPolicy) (imgW imgH : ℕ) (ex : ExistingArt)
    (rawBytes : ℕ) (ans : AskAnswer) : Disk × Option (List Char) :=
  if imgW < 200 ∨ imgH < 200 then (d, none)
  else
    let r := should_overwrite_files policy d.webpExists d.jpgExists ex
      ⟨imgW, imgH, rawBytes⟩ ans
    if r.decision then
      (⟨true, true⟩, some (webpFilenameOf p cased ci low sci))
    else (d, some (webpFilenameOf p cased ci low sci))

/-- `ImageOps.exif_transpose` at the level of pixel dimensions:
EXIF orientations 5–8 transpose width and height, the others keep them. -/
def exifDims (orientation w h : ℕ) : ℕ × ℕ :=
  if orientation = 5 ∨ orientation = 6 ∨ orientation = 7 ∨ orientation = 8
  then (h, w) else (w, h)

/-- Round `num / den` to the nearest integer (half up), clamped to at
least 1 — the dimension rounding of Pillow's `thumbnail`. -/
def round_aspect (num den : ℕ) : ℕ :=
  max 1 ((2 * num + den) / (2 * den))

/-- `img.thumbnail((512, 512))` at the level of pixel dimensions
(Pillow's documented behavior: never enlarge, fit within the box,
preserve aspect ratio by proportional rounding). -/
def thumbnailDims (w h : ℕ) : ℕ × ℕ :=
  if w ≤ 512 ∧ h ≤ 512 then (w, h)
  else if w ≤ h then (round_aspect (512 * w) h, 512)
  else (512, round_aspect (512 * h) w)

/-- The dimension pipeline of `download_and_process_image`
(source lines 254–268): reject if either input axis is under 200
(checked before orientation), then EXIF-orient, then thumbnail to fit
512×512. -/
def process_dims (orientation w h : ℕ) : Option (ℕ × ℕ) :=
  if w < 200 ∨ h < 200 then none
  else
    some (thumbnailDims (exifDims orientation w h).1
      (exifDims orientation w h).2)

/-- The resume skip decision of `main` (source lines 597–613): `true`
means the species is skipped (`continue`), `false` means it proceeds to
`fetch_bird_image`. -/
def resume_skips (noResume forceRedownload : Bool)
    (entry : Option (List Char)) (filesExist : Bool) : Bool :=
  match entry with
  | none => false
  | some fn =>
    if noResume || forceRedownload then false
    else if fn = [] then true
    else filesExist

/-- A species as seen by the main loop: an abstract name key and whether
its artifact files currently exist on disk. -/
structure SpInfo where
  name : ℕ
  filesExist : Bool
  deriving DecidableEq, Repr

/-- The CLI flags relevant to the loop. -/
structure RunCfg where
  noResume : Bool
  forceRedownload : Bool
  deriving DecidableEq, Repr

/-- The progress ledger: species key → recorded filename
(`[]` = attempted and failed). -/
abbrev Ledger := List (ℕ × List Char)

/-- Python dict assignment `progress[name] = v`. -/
def ledgerUpdate (k : ℕ) (v : List Char) (led : Ledger) : Ledger :=
  (k, v) :: led.filter (fun e => !(e.1 == k))

/-- The observable outcome of the main loop: the in-memory ledger at
termination (which the `finally` block saves), the `(iteration index,
species key)` pairs for which `fetch_bird_image` actually ran, and the
iteration indices after which the periodic `save_progress` ran. -/
structure LoopResult where
  ledger : Ledger
  fetched : List (ℕ × ℕ)
  cps : List ℕ
  deriving DecidableEq, Repr

/-- The species loop of `main` (source lines 593–640).  `abortAt = some i`
models an unhandled exception or a user interrupt raised while processing
the species at enumeration index `i` (before its outcome is recorded);
`abortAt = none` is a normal completion.  In every case the `finally`
block saves the returned `ledger`.  Skipped iterations record nothing and
also skip the periodic-save check (`continue` runs first); processed
iterations record the fetch outcome and save when `(i + 1) % 10 == 0`. -/
def main_loop (cfg : RunCfg) (fetch : ℕ → List Char) (abortAt : Option ℕ) :
    List SpInfo → ℕ → Ledger → LoopResult
  | [], _, led => ⟨led, [], []⟩
  | sp :: rest, i, led =>
    if abortAt = some i then ⟨led, [], []⟩
    else if resume_skips cfg.noResume cfg.forceRedownload
        (led.lookup sp.name) sp.filesExist then
      main_loop cfg fetch abortAt rest (i + 1) led
    else
      let r := main_loop cfg fetch abortAt rest (i + 1)
        (ledgerUpdate sp.name (fetch sp.name) led)
      { ledger := r.ledger,
        fetched := (i, sp.name) :: r.fetched,
        cps := if (i + 1) % 10 = 0 then i :: r.cps else r.cps }

/-!
## Theorems
-/

/-- C1 counterexample: the claim demands approval for every new
normalized area `A' ≥ 1.25 × A`, but at exactly `A' = 1.25 × A`
(existing 400×400, new 500×400, so `4·A' = 5·A`) with equal encoded
sizes the source's strict comparisons reject the replacement. -/
theorem c1_counterexample :
    0 < 400 * 400 ∧ 4 * (500 * 400) = 5 * (400 * 400) ∧
    (should_overwrite_files OwPolicy.better true false
      ⟨400, 400, 1000⟩ ⟨500, 400, 1000⟩ AskAnswer.other).decision = false := by
  decide

/-- C1 (amended): under policy `better` with an existing artifact, the
arbiter approves replacement iff the new pixel area strictly exceeds
1.25× the existing area, or the new decoded byte size strictly exceeds
1.1× the existing file size (in exact arithmetic: `4·A' > 5·A` or
`10·S' > 11·S`); in particular it approves whenever `A' > 1.25·A`, and
rejects at `A' = 1.05·A` with equal sizes. -/
theorem c1_better_policy (webpEx jpgEx : Bool) (ex : ExistingArt)
    (img : NewImg) (ans : AskAnswer) (hex : webpEx = true ∨ jpgEx = true) :
    (should_overwrite_files OwPolicy.better webpEx jpgEx ex img ans).decision
      = true
      ↔ (5 * (ex.w * ex.h) < 4 * (img.w * img.h)
          ∨ 11 * ex.fileSize < 10 * img.rawBytes) := by
  have hand : (!webpEx && !jpgEx) = false := by
    rcases hex with h | h <;> simp [h]
  unfold should_overwrite_files is_new_image_better
  rw [hand]
  simp only [Bool.false_eq_true, if_false]
  by_cases h1 : 4 * (img.w * img.h) > 5 * (ex.w * ex.h)
  · simp [h1]
  · simp [h1]
    try omega

/-- Witness for `c1_better_policy` at existing 400×400 and new 600×400
with equal byte sizes: approval, since the new area strictly exceeds
1.25× the existing one. -/
theorem c1_better_policy_witness :
    (true = true ∨ false = true) ∧
    ((should_overwrite_files OwPolicy.better true false
        ⟨400, 400, 1000⟩ ⟨600, 400, 1000⟩ AskAnswer.other).decision = true
      ↔ (5 * (400 * 400) < 4 * (600 * 400) ∨ 11 * 1000 < 10 * 1000)) :=
  ⟨Or.inl rfl, c1_better_policy true false ⟨400, 400, 1000⟩
    ⟨600, 400, 1000⟩ AskAnswer.other (Or.inl rfl)⟩

/-- C2: on a resumed run (`no_resume` and `force_redownload` both
unset), a species with a ledger entry is skipped — not fetched, no
network, ledger untouched — iff its entry is empty (prior failure) or
its entry is non-empty and the artifact files still exist; with a
non-empty entry and missing files it is re-attempted (fetched and
re-recorded). -/
theorem c2_resume_semantics (fetch : ℕ → List Char) (fn : List Char)
    (filesExist : Bool) :
    resume_skips false false (some fn) filesExist
      = (decide (fn = []) || filesExist) ∧
    (main_loop ⟨false, false⟩ fetch none [⟨0, filesExist⟩] 0 [(0, fn)]).fetched
      = (if fn = [] ∨ filesExist = true then [] else [(0, 0)]) ∧
    (main_loop ⟨false, false⟩ fetch none [⟨0, filesExist⟩] 0 [(0, fn)]).ledger
      = (if fn = [] ∨ filesExist = true then [(0, fn)]
         else ledgerUpdate 0 (fetch 0) [(0, fn)]) := by
  refine ⟨?_, ?_, ?_⟩ <;>
    · by_cases hfn : fn = [] <;> cases filesExist <;>
        simp [resume_skips, main_loop, List.lookup, hfn]

/-- C3: with `--overwrite ask` and two species both having existing
artifacts, answering `a` ("always") at the first prompt writes
`self.overwrite_policy` — but that attribute is never read, so the
second species prompts again and its answer (`n`) rejects: two prompts
and decisions `[true, false]`, contradicting the claimed stickiness
(which demands one prompt and all later decisions `true`). -/
theorem c3_ask_answer_not_sticky :
    (session_run OwPolicy.ask ⟨1, 1, 1⟩ ⟨1, 1, 1⟩
      [(true, true), (true, true)]
      [AskAnswer.always, AskAnswer.never] ⟨none, 0, []⟩).prompts = 2 ∧
    (session_run OwPolicy.ask ⟨1, 1, 1⟩ ⟨1, 1, 1⟩
      [(true, true), (true, true)]
      [AskAnswer.always, AskAnswer.never] ⟨none, 0, []⟩).decisions
      = [true, false] ∧
    (session_run OwPolicy.ask ⟨1, 1, 1⟩ ⟨1, 1, 1⟩
      [(true, true)]
      [AskAnswer.always] ⟨none, 0, []⟩).policyAttr
      = some OwPolicy.always := by
  decide

/-- C10: when `download_and_process_image` reaches the overwrite
decision (image passes the minimum-size floor) and the decision is
negative (policy `never` with only the jpg artifact on disk), no file
is written or modified, yet the call returns the webp filename as a
non-`None` success — naming a webp file that does not exist. -/
theorem c10_skip_returns_webp (p cased ci : Char → Bool)
    (low : Char → List Char) (sci : List Char)
    (d : Disk) (ex : ExistingArt) (imgW imgH rawBytes : ℕ)
    (ans : AskAnswer) (hjpg : d.jpgExists = true)
    (hwebp : d.webpExists = false) (hw : 200 ≤ imgW) (hh : 200 ≤ imgH) :
    download_and_process_image p cased ci low sci d OwPolicy.never imgW
        imgH ex rawBytes ans
      = (d, some (webpFilenameOf p cased ci low sci)) ∧
    d.webpExists = false := by
  refine ⟨?_, hwebp⟩
  unfold download_and_process_image
  rw [if_neg (by omega)]
  have : should_overwrite_files OwPolicy.never d.webpExists d.jpgExists ex
      ⟨imgW, imgH, rawBytes⟩ ans = ⟨false, none, false⟩ := by
    unfold should_overwrite_files
    rw [hjpg]
    simp
  rw [this]
  simp

/-- Witness for `c10_skip_returns_webp`: a 300×300 download under
policy `never` with only `parus_major.jpg` on disk changes nothing on
disk and still returns `parus_major.webp`. -/
theorem c10_skip_returns_webp_witness :
    (⟨false, true⟩ : Disk).jpgExists = true ∧
    (⟨false, true⟩ : Disk).webpExists = false ∧
    200 ≤ 300 ∧
    (download_and_process_image demoAlnum demoCased demoCI demoLow
        (("Parus major" : String).toList) ⟨false, true⟩ OwPolicy.never
        300 300 ⟨400, 400, 1000⟩ 999 AskAnswer.other
      = (⟨false, true⟩, some (webpFilenameOf demoAlnum demoCased demoCI
          demoLow (("Parus major" : String).toList))) ∧
      (⟨false, true⟩ : Disk).webpExists = false) :=
  ⟨rfl, rfl, by decide,
    c10_skip_returns_webp demoAlnum demoCased demoCI demoLow
      (("Parus major" : String).toList)
      ⟨false, true⟩ ⟨400, 400, 1000⟩ 300 300 999 AskAnswer.other rfl rfl
      (by decide) (by decide)⟩

/-- If `num ≤ k * den` with `den > 0` and `k ≥ 1`, the rounded quotient
stays below `k`. -/
theorem round_aspect_le (k num den : ℕ) (hden : 0 < den) (hk : 1 ≤ k)
    (h : num ≤ k * den) : round_aspect num den ≤ k := by
  unfold round_aspect
  have h2 : (2 * num + den) / (2 * den) ≤ k := by
    have hlt : 2 * num + den < (k + 1) * (2 * den) := by nlinarith
    have := (Nat.div_lt_iff_lt_mul (by omega : 0 < 2 * den)).2 hlt
    omega
  omega

/-- Dimension bounds of the thumbnail step: for a positive-size image
the result fits in the 512×512 box and never exceeds the input on
either axis (downscale only). -/
theorem thumbnailDims_bounds (w h : ℕ) (hw : 1 ≤ w) (hh : 1 ≤ h) :
    (thumbnailDims w h).1 ≤ 512 ∧ (thumbnailDims w h).2 ≤ 512 ∧
    (thumbnailDims w h).1 ≤ w ∧ (thumbnailDims w h).2 ≤ h := by
  unfold thumbnailDims
  by_cases h1 : w ≤ 512 ∧ h ≤ 512
  · simp [h1]
  · rw [if_neg h1]
    by_cases h2 : w ≤ h
    · have hh512 : 512 < h := by omega
      rw [if_pos h2]
      refine ⟨?_, by simp, ?_, by simp; omega⟩
      · exact round_aspect_le 512 (512 * w) h (by omega) (by omega)
          (by nlinarith)
      · exact round_aspect_le w (512 * w) h (by omega) hw (by nlinarith)
    · have hw512 : 512 < w := by omega
      rw [if_neg h2]
      refine ⟨by simp, ?_, by simp; omega, ?_⟩
      · exact round_aspect_le 512 (512 * h) w (by omega) (by omega)
          (by nlinarith)
      · exact round_aspect_le h (512 * h) w (by omega) hh (by nlinarith)

/-- C6 counterexample: a 4000×250 input passes the 200×200 minimum
floor on both axes, yet normalization produces 512×32 — the output
height falls below the claimed 200-pixel minimum. -/
theorem c6_counterexample :
    200 ≤ 4000 ∧ 200 ≤ 250 ∧
    process_dims 1 4000 250 = some (512, 32) ∧ 32 < 200 := by
  decide

/-- C6 (amended): every image accepted by the minimum-dimension floor
is normalized to dimensions that fit within the 512×512 box and never
exceed the (EXIF-corrected) input dimensions — the resize only ever
downscales, and EXIF-orientation correction precedes it — but the
output may drop below the 200×200 minimum on one axis for extreme
aspect ratios. -/
theorem c6_normalization_bounds (orientation w h : ℕ)
    (hw : 200 ≤ w) (hh : 200 ≤ h) :
    ∃ d : ℕ × ℕ, process_dims orientation w h = some d ∧
      d.1 ≤ 512 ∧ d.2 ≤ 512 ∧
      d.1 ≤ (exifDims orientation w h).1 ∧
      d.2 ≤ (exifDims orientation w h).2 ∧
      d = thumbnailDims (exifDims orientation w h).1
            (exifDims orientation w h).2 := by
  have he1 : 1 ≤ (exifDims orientation w h).1 ∧
      1 ≤ (exifDims orientation w h).2 := by
    unfold exifDims
    split <;> simp <;> omega
  have hb := thumbnailDims_bounds (exifDims orientation w h).1
    (exifDims orientation w h).2 he1.1 he1.2
  refine ⟨thumbnailDims (exifDims orientation w h).1
    (exifDims orientation w h).2, ?_, hb.1, hb.2.1, hb.2.2.1, hb.2.2.2, rfl⟩
  unfold process_dims
  rw [if_neg (by omega)]

/-- Witness for `c6_normalization_bounds` at a 1000×800 input with
orientation 1. -/
theorem c6_normalization_bounds_witness :
    200 ≤ 1000 ∧ 200 ≤ 800 ∧
    (∃ d : ℕ × ℕ, process_dims 1 1000 800 = some d ∧
      d.1 ≤ 512 ∧ d.2 ≤ 512 ∧
      d.1 ≤ (exifDims 1 1000 800).1 ∧
      d.2 ≤ (exifDims 1 1000 800).2 ∧
      d = thumbnailDims (exifDims 1 1000 800).1 (exifDims 1 1000 800).2) :=
  ⟨by decide, by decide,
    c6_normalization_bounds 1 1000 800 (by decide) (by decide)⟩

/-- Dropping periods and commas before the alphanumeric/underscore/
hyphen filter changes nothing, because that filter drops them anyway. -/
theorem filter_dotcomma_absorb (p : Char → Bool) (hdot : p ('.') = false)
    (hcomma : p (',') = false) (l : List Char) :
    ((l.filter (fun c => !(c == '.'))).filter
        (fun c => !(c == ','))).filter (keepChar p)
      = l.filter (keepChar p) := by
  rw [List.filter_filter, List.filter_filter]
  refine List.filter_congr ?_
  intro c _
  by_cases hd : c = '.'
  · subst hd
    simp [keepChar, hdot]
  · by_cases hc : c = ','
    · subst hc
      simp [keepChar, hcomma]
    · have h1 : (c == '.') = false := beq_eq_false_iff_ne.2 hd
      have h2 : (c == ',') = false := beq_eq_false_iff_ne.2 hc
      simp [h1, h2]

/-- Lowering a one-character string never triggers the final-sigma
context (no preceding cased character): a lone non-sigma character maps
by the context-free map. -/
theorem pyLower_single (cased ci : Char → Bool) (low : Char → List Char)
    (c : Char) (hc : ¬(c = 'Σ')) :
    pyLower cased ci low [c] = low c := by
  simp [pyLower, pyLowerGo, hc]

/-- On sigma-free text, whole-string lowering and character-by-character
lowering agree: the only context-sensitive case never arises. -/
theorem pyLowerGo_no_sigma (cased ci : Char → Bool)
    (low : Char → List Char) :
    ∀ (l : List Char), 'Σ' ∉ l → ∀ before,
      pyLowerGo cased ci low before l
        = l.flatMap (fun c => pyLower cased ci low [c]) := by
  intro l
  induction l with
  | nil =>
    intro _ before
    rfl
  | cons c rest ih =>
    intro hl before
    simp only [List.mem_cons, not_or] at hl
    have hc : ¬(c = 'Σ') := fun h => hl.1 h.symm
    rw [List.flatMap_cons]
    unfold pyLowerGo
    rw [if_neg hc, pyLower_single cased ci low c hc,
      ih hl.2 (c :: before)]

/-- Sigma-freeness survives space replacement and the keep-filter. -/
theorem no_sigma_filtered (p : Char → Bool) (name : List Char)
    (h : 'Σ' ∉ name) :
    'Σ' ∉ (replaceSpace name).filter (keepChar p) := by
  intro hmem
  have h2 := List.mem_of_mem_filter hmem
  unfold replaceSpace at h2
  rcases List.mem_map.1 h2 with ⟨c, hc, heq⟩
  by_cases hsp : c = ' '
  · rw [if_pos hsp] at heq
    cases heq
  · rw [if_neg hsp] at heq
    exact h (heq ▸ hc)

/-- C9 counterexample: for the name `ΑΣ` (capital alpha, capital
sigma; both alphanumeric in Python), `_sanitize_filename`'s
whole-string `lower()` puts the sigma in Final_Sigma context and yields
`ας`, while the dry-run path lowers each character alone and yields
`ασ` — the two sanitizers disagree, so the for-every-input-name
equivalence is false. -/
theorem c9_counterexample :
    sanitize_filename demoAlnum demoCased demoCI demoLow
        (("ΑΣ" : String).toList) = ("ας" : String).toList ∧
    dry_run_safe_name demoAlnum demoCased demoCI demoLow
        (("ΑΣ" : String).toList) = ("ασ" : String).toList ∧
    sanitize_filename demoAlnum demoCased demoCI demoLow
        (("ΑΣ" : String).toList)
      ≠ dry_run_safe_name demoAlnum demoCased demoCI demoLow
        (("ΑΣ" : String).toList) := by
  decide

/-- C9 (amended): for every input name that contains no capital sigma
`'Σ'`, the inline dry-run sanitization produces exactly the same string
as `_sanitize_filename` (for any alphanumeric predicate rejecting
periods and commas, as Python's `isalnum` does, and any Unicode cased /
case-ignorable / lowercase-map instantiation), so on such names —
including all ASCII scientific names — dry run reports the same
artifact paths as a real run; on names where a kept `'Σ'` lands in
Final_Sigma position the two paths disagree (`ς` versus `σ`). -/
theorem c9_sanitize_equiv_no_sigma (p cased ci : Char → Bool)
    (low : Char → List Char) (hdot : p ('.') = false)
    (hcomma : p (',') = false) (name : List Char)
    (hsigma : 'Σ' ∉ name) :
    dry_run_safe_name p cased ci low name
      = sanitize_filename p cased ci low name := by
  unfold dry_run_safe_name sanitize_filename
  rw [filter_dotcomma_absorb p hdot hcomma]
  exact (pyLowerGo_no_sigma cased ci low
    ((replaceSpace name).filter (keepChar p))
    (no_sigma_filtered p name hsigma) []).symm

/-- Witness for `c9_sanitize_equiv_no_sigma` on a sigma-free two-word
scientific name. -/
theorem c9_sanitize_equiv_no_sigma_witness :
    demoAlnum ('.') = false ∧ demoAlnum (',') = false ∧
    'Σ' ∉ (("Parus major" : String).toList) ∧
    dry_run_safe_name demoAlnum demoCased demoCI demoLow
        (("Parus major" : String).toList)
      = sanitize_filename demoAlnum demoCased demoCI demoLow
        (("Parus major" : String).toList) :=
  ⟨by decide, by decide, by decide,
    c9_sanitize_equiv_no_sigma demoAlnum demoCased demoCI demoLow
      (by decide) (by decide) (("Parus major" : String).toList)
      (by decide)⟩

/-- Membership through ranked insertion. -/
theorem mem_insertRanked (a x : FHit) (l : List FHit) :
    a ∈ insertRanked x l ↔ a = x ∨ a ∈ l := by
  induction l with
  | nil => simp [insertRanked]
  | cons y ys ih =>
    unfold insertRanked
    by_cases h : keyGE x y = true
    · simp [h]
    · rw [if_neg h]
      simp only [List.mem_cons, ih]
      tauto

/-- Ranked insertion is a permutation with consing. -/
theorem perm_insertRanked (x : FHit) (l : List FHit) :
    (insertRanked x l).Perm (x :: l) := by
  induction l with
  | nil => exact List.Perm.refl _
  | cons y ys ih =>
    unfold insertRanked
    by_cases h : keyGE x y = true
    · rw [if_pos h]
    · rw [if_neg h]
      exact (List.Perm.cons y ih).trans (List.Perm.swap x y ys)

/-- The ranking sort permutes its input (nothing dropped, nothing added). -/
theorem perm_sortRanked (l : List FHit) : (sortRanked l).Perm l := by
  induction l with
  | nil => exact List.Perm.refl _
  | cons x xs ih =>
    unfold sortRanked
    exact (perm_insertRanked x (sortRanked xs)).trans (List.Perm.cons x ih)

/-- The descending key comparison is total. -/
theorem keyGE_total (a b : FHit) : keyGE a b = true ∨ keyGE b a = true := by
  unfold keyGE
  simp only [Bool.or_eq_true, Bool.and_eq_true, decide_eq_true_eq, beq_iff_eq]
  omega

/-- The descending key comparison is transitive. -/
theorem keyGE_trans (a b c : FHit) (h1 : keyGE a b = true)
    (h2 : keyGE b c = true) : keyGE a c = true := by
  unfold keyGE at h1 h2 ⊢
  simp only [Bool.or_eq_true, Bool.and_eq_true, decide_eq_true_eq,
    beq_iff_eq] at h1 h2 ⊢
  omega

/-- Ranked insertion preserves the descending pairwise order. -/
theorem pairwise_insertRanked (x : FHit) (l : List FHit)
    (hl : l.Pairwise (fun u v => keyGE u v = true)) :
    (insertRanked x l).Pairwise (fun u v => keyGE u v = true) := by
  induction l with
  | nil => simp [insertRanked]
  | cons y ys ih =>
    rcases List.pairwise_cons.1 hl with ⟨hy, hys⟩
    unfold insertRanked
    by_cases h : keyGE x y = true
    · rw [if_pos h]
      refine List.pairwise_cons.2 ⟨?_, hl⟩
      intro z hz
      rcases List.mem_cons.1 hz with rfl | hz
      · exact h
      · exact keyGE_trans x y z h (hy z hz)
    · rw [if_neg h]
      refine List.pairwise_cons.2 ⟨?_, ih hys⟩
      intro z hz
      rcases (mem_insertRanked z x ys).1 hz with rfl | hz
      · rcases keyGE_total z y with h' | h'
        · exact absurd h' h
        · exact h'
      · exact hy z hz

/-- The pipeline's output is pairwise ordered by descending
`(final_score, size)`. -/
theorem pairwise_sortRanked (l : List FHit) :
    (sortRanked l).Pairwise (fun u v => keyGE u v = true) := by
  induction l with
  | nil => simp [sortRanked]
  | cons x xs ih =>
    unfold sortRanked
    exact pairwise_insertRanked x (sortRanked xs) ih

/-- Deduplication only keeps elements of its input. -/
theorem mem_dedupGo (seen : List (List Char)) (l : List SHit) (a : SHit)
    (ha : a ∈ dedupGo seen l) : a ∈ l := by
  induction l generalizing seen with
  | nil => simp [dedupGo] at ha
  | cons r rs ih =>
    unfold dedupGo at ha
    by_cases h : r.title ∈ seen
    · rw [if_pos h] at ha
      exact List.mem_cons_of_mem r (ih seen ha)
    · rw [if_neg h] at ha
      rcases List.mem_cons.1 ha with rfl | ha
      · exact List.mem_cons_self a rs
      · exact List.mem_cons_of_mem r (ih (r.title :: seen) ha)

/-- Every survivor of `_filter_bird_images` is free of disallow terms. -/
theorem filter_bird_images_clean (hits : List Hit) (sci : List Char)
    (s : SHit) (hs : s ∈ filter_bird_images hits sci) :
    hasBadKeyword (lowerL s.title) (lowerL s.snippet) = false := by
  unfold filter_bird_images at hs
  rcases List.mem_filterMap.1 hs with ⟨r, _, hf⟩
  by_cases hb : hasBadKeyword (lowerL r.title) (lowerL r.snippet) = true
  · rw [if_pos hb] at hf
    cases hf
  · rw [if_neg hb] at hf
    obtain rfl := Option.some.inj hf
    exact Bool.eq_false_iff.2 hb

/-- C4: a hit whose lowered title or snippet contains a disallow-list
term is discarded by the filter unconditionally — whatever allow-list
terms it also contains — so no candidate carrying a disallow term ever
appears in the filter output or in the final ranked pipeline output. -/
theorem c4_disallow_precedence (hits : List Hit) (sci : List Char) :
    (∀ s ∈ filter_bird_images hits sci,
      hasBadKeyword (lowerL s.title) (lowerL s.snippet) = false) ∧
    (∀ r ∈ search_pipeline hits sci,
      hasBadKeyword (lowerL r.title) (lowerL r.snippet) = false) := by
  refine ⟨fun s hs => filter_bird_images_clean hits sci s hs, ?_⟩
  intro r hr
  unfold search_pipeline deduplicate_and_score_results at hr
  have hr2 := (perm_sortRanked _).mem_iff.1 hr
  rcases List.mem_map.1 hr2 with ⟨s, hsd, rfl⟩
  have hclean := filter_bird_images_clean hits sci s
    (mem_dedupGo [] _ s hsd)
  simpa [scoreHit] using hclean

/-- Demo species name for the pipeline witnesses. -/
def demoSci : List Char := ("Parus major" : String).toList

/-- A clean hit: allow terms only. -/
def demoGoodHit : Hit :=
  ⟨(("Parus major bird photo" : String)).toList, [], 2000000⟩

/-- A hit containing the disallow term `egg` alongside several
allow-list terms (`male`, `photo`, the scientific name). -/
def demoBadHit : Hit :=
  ⟨(("Parus major egg male photo" : String)).toList, [], 9999999⟩

/-- Witness for `c4_disallow_precedence`: on a concrete two-hit input
whose second hit mixes `egg` with allow terms, the pipeline output is
exactly the scored clean hit, and the theorem instantiates at it. -/
theorem c4_disallow_precedence_witness :
    search_pipeline [demoGoodHit, demoBadHit] demoSci
      = [⟨demoGoodHit.title, [], 2000000, 3, 15000000⟩] ∧
    (⟨demoGoodHit.title, [], 2000000, 3, 15000000⟩ : FHit)
      ∈ search_pipeline [demoGoodHit, demoBadHit] demoSci ∧
    hasBadKeyword (lowerL (⟨demoGoodHit.title, [], 2000000, 3,
      15000000⟩ : FHit).title) (lowerL ([] : List Char)) = false :=
  ⟨by decide, by decide,
    (c4_disallow_precedence [demoGoodHit, demoBadHit] demoSci).2
      ⟨demoGoodHit.title, [], 2000000, 3, 15000000⟩ (by decide)⟩

/-- The scored candidate (`quality_score` attached) that a clean hit
becomes in `_filter_bird_images`. -/
def scoredOf (sci : List Char) (r : Hit) : SHit :=
  { title := r.title, snippet := r.snippet, size := r.size,
    quality_score := qualityScore sci (lowerL r.title) (lowerL r.snippet) }

/-- The fully scored candidate a hit becomes in the pipeline output. -/
def rankedOf (sci : List Char) (r : Hit) : FHit :=
  scoreHit sci (scoredOf sci r)

/-- If `b` differs from `a` only in that its lowered title additionally
contains the lowered scientific name (all other keyword-occurrence tests
unchanged, same snippet and size), then `b`'s final score exceeds `a`'s
by at least the 10-point verbatim-name bonus. -/
theorem rankedOf_score_gap (sci : List Char) (a b : Hit)
    (hsnip : b.snippet = a.snippet) (hsize : b.size = a.size)
    (hb : subIn (lowerL sci) (lowerL b.title) = true)
    (ha : subIn (lowerL sci) (lowerL a.title) = false)
    (hsame : ∀ w ∈ good_base_keywords,
      subIn w (lowerL b.title) = subIn w (lowerL a.title)) :
    final_score sci (scoredOf sci a) + 10000000
      ≤ final_score sci (scoredOf sci b) := by
  have hQ : good_base_keywords.countP
      (fun w => matchesIn w (lowerL b.title) (lowerL b.snippet))
      = good_base_keywords.countP
      (fun w => matchesIn w (lowerL a.title) (lowerL a.snippet)) := by
    refine List.countP_congr ?_
    intro w hw
    unfold matchesIn
    rw [hsame w hw, hsnip]
  have hb1 : ([lowerL sci] : List (List Char)).countP
      (fun w => matchesIn w (lowerL b.title) (lowerL b.snippet)) = 1 := by
    simp [List.countP_cons, matchesIn, hb]
  have ha1 : ([lowerL sci] : List (List Char)).countP
      (fun w => matchesIn w (lowerL a.title) (lowerL a.snippet)) ≤ 1 := by
    simpa using List.countP_le_length
      (p := fun w => matchesIn w (lowerL a.title) (lowerL a.snippet))
      (l := [lowerL sci])
  have hpat : (score_patterns.any (fun w => subIn w (lowerL b.title)))
      = (score_patterns.any (fun w => subIn w (lowerL a.title))) := by
    have h1 := hsame (['m', 'a', 'l', 'e']) (by decide)
    have h2 := hsame (['f', 'e', 'm', 'a', 'l', 'e']) (by decide)
    have h3 := hsame (['a', 'd', 'u', 'l', 't']) (by decide)
    have h4 := hsame (['p', 'o', 'r', 't', 'r', 'a', 'i', 't']) (by decide)
    simp [score_patterns, h1, h2, h3, h4]
  simp only [final_score, scoredOf, qualityScore, good_keywords,
    List.countP_append, hb, ha, if_true, if_false, hpat, hsize]
  cases hpa : score_patterns.any (fun w => subIn w (lowerL a.title)) <;>
    simp <;> omega

/-- C5: for two candidate hits identical except that one's title
additionally contains the scientific name verbatim (same snippet, same
declared size, all other keyword-occurrence tests unchanged), the one
containing the name gets a strictly higher final score, and wherever
both appear in the ranked pipeline output, it appears strictly earlier
(never ranks below the other). -/
theorem c5_sciname_monotone (hits : List Hit) (sci : List Char)
    (a b : Hit) (hsnip : b.snippet = a.snippet) (hsize : b.size = a.size)
    (hb : subIn (lowerL sci) (lowerL b.title) = true)
    (ha : subIn (lowerL sci) (lowerL a.title) = false)
    (hsame : ∀ w ∈ good_base_keywords,
      subIn w (lowerL b.title) = subIn w (lowerL a.title)) :
    final_score sci (scoredOf sci a) < final_score sci (scoredOf sci b) ∧
    ∀ (i j : Fin (search_pipeline hits sci).length),
      (search_pipeline hits sci).get i = rankedOf sci b →
      (search_pipeline hits sci).get j = rankedOf sci a →
      (i : ℕ) < (j : ℕ) := by
  have hgap := rankedOf_score_gap sci a b hsnip hsize hb ha hsame
  refine ⟨by omega, ?_⟩
  intro i j hi hj
  have hpw : (search_pipeline hits sci).Pairwise
      (fun u v => keyGE u v = true) := by
    unfold search_pipeline deduplicate_and_score_results
    exact pairwise_sortRanked _
  have hfs_b : (rankedOf sci b).final_score
      = final_score sci (scoredOf sci b) := rfl
  have hfs_a : (rankedOf sci a).final_score
      = final_score sci (scoredOf sci a) := rfl
  rcases lt_trichotomy (i : ℕ) (j : ℕ) with h | h | h
  · exact h
  · exfalso
    have heq : rankedOf sci b = rankedOf sci a := by
      rw [← hi, ← hj]
      congr 1
      exact Fin.ext h
    have := congrArg FHit.final_score heq
    rw [hfs_b, hfs_a] at this
    omega
  · exfalso
    have hge := List.pairwise_iff_get.1 hpw j i (Fin.lt_def.2 h)
    rw [hi, hj] at hge
    unfold keyGE at hge
    rw [hfs_b, hfs_a] at hge
    simp only [Bool.or_eq_true, Bool.and_eq_true, decide_eq_true_eq,
      beq_iff_eq] at hge
    omega

/-- A hit whose title lacks the scientific name (`abc`). -/
def c5aHit : Hit := ⟨("bird x" : String).toList, [], 7⟩

/-- The same hit with the scientific name appended to the title. -/
def c5bHit : Hit := ⟨("bird x abc" : String).toList, [], 7⟩

/-- The scientific name used in the `c5` witness. -/
def c5Sci : List Char := ("abc" : String).toList

/-- Witness for `c5_sciname_monotone` on a concrete pair of hits
differing only by the verbatim scientific name in the title. -/
theorem c5_sciname_monotone_witness :
    c5bHit.snippet = c5aHit.snippet ∧ c5bHit.size = c5aHit.size ∧
    subIn (lowerL c5Sci) (lowerL c5bHit.title) = true ∧
    subIn (lowerL c5Sci) (lowerL c5aHit.title) = false ∧
    (∀ w ∈ good_base_keywords,
      subIn w (lowerL c5bHit.title) = subIn w (lowerL c5aHit.title)) ∧
    (final_score c5Sci (scoredOf c5Sci c5aHit)
        < final_score c5Sci (scoredOf c5Sci c5bHit) ∧
      ∀ (i j : Fin (search_pipeline [c5aHit, c5bHit] c5Sci).length),
        (search_pipeline [c5aHit, c5bHit] c5Sci).get i
          = rankedOf c5Sci c5bHit →
        (search_pipeline [c5aHit, c5bHit] c5Sci).get j
          = rankedOf c5Sci c5aHit →
        (i : ℕ) < (j : ℕ)) :=
  ⟨rfl, rfl, by decide, by decide, by decide,
    c5_sciname_monotone [c5aHit, c5bHit] c5Sci c5aHit c5bHit rfl rfl
      (by decide) (by decide) (by decide)⟩

/-- Scoring each candidate commutes with title-deduplication: scoring
before removing duplicates yields exactly the same list as removing
duplicates first and scoring the survivors. -/
theorem dedup_score_commute (sci : List Char) (seen : List (List Char))
    (l : List SHit) :
    (dedupGo seen l).map (scoreHit sci)
      = dedupFGo seen (l.map (scoreHit sci)) := by
  induction l generalizing seen with
  | nil => rfl
  | cons r rs ih =>
    by_cases h : r.title ∈ seen
    · simp [dedupGo, dedupFGo, scoreHit, h, ih]
    · simp [dedupGo, dedupFGo, scoreHit, h, ih]

/-- Title-deduplication yields pairwise-distinct titles, none of them
in the seen set. -/
theorem dedupGo_titles (seen : List (List Char)) (l : List SHit) :
    ((dedupGo seen l).map (fun r => r.title)).Nodup ∧
    ∀ t ∈ (dedupGo seen l).map (fun r => r.title), t ∉ seen := by
  induction l generalizing seen with
  | nil => simp [dedupGo]
  | cons r rs ih =>
    by_cases h : r.title ∈ seen
    · simpa [dedupGo, h] using ih seen
    · have ihh := ih (r.title :: seen)
      simp only [dedupGo, h, if_neg, if_false, List.map_cons,
        List.nodup_cons, List.mem_cons]
      refine ⟨⟨?_, ihh.1⟩, ?_⟩
      · intro hmem
        have := ihh.2 r.title hmem
        simp at this
      · rintro t (rfl | ht)
        · exact h
        · have := ihh.2 t ht
          intro hseen
          exact this (List.mem_cons_of_mem _ hseen)

/-- Title-deduplication keeps exactly the first occurrence of each
title: `find?` by title gives the same answer before and after. -/
theorem dedupGo_find (seen : List (List Char)) (l : List SHit)
    (t : List Char) (ht : t ∉ seen) :
    (dedupGo seen l).find? (fun r => r.title == t)
      = l.find? (fun r => r.title == t) := by
  induction l generalizing seen with
  | nil => rfl
  | cons r rs ih =>
    by_cases h : r.title ∈ seen
    · have hne : (r.title == t) = false := by
        refine beq_eq_false_iff_ne.2 ?_
        intro hEq
        exact ht (hEq ▸ h)
      rw [List.find?_cons_of_neg _ (by simp [hne])]
      simp only [dedupGo, h, if_pos]
      exact ih seen ht
    · by_cases he : r.title = t
      · simp only [dedupGo, h, if_neg, if_false]
        rw [List.find?_cons_of_pos _ (by simp [he]),
          List.find?_cons_of_pos _ (by simp [he])]
      · have hne : (r.title == t) = false := beq_eq_false_iff_ne.2 he
        have ht2 : t ∉ r.title :: seen := by
          intro hmem
          rcases List.mem_cons.1 hmem with hEq | hmem2
          · exact he hEq.symm
          · exact ht hmem2
        simp only [dedupGo, h, if_neg, if_false]
        rw [List.find?_cons_of_neg _ (by simp [hne]),
          List.find?_cons_of_neg _ (by simp [hne])]
        exact ih (r.title :: seen) ht2

/-- C7: the pipeline output (i) is a permutation of the scored
deduplicated candidates — nothing beyond disallow-filtered hits is
dropped, zero-scoring candidates included; (ii) scoring accumulates
all signals interchangeably before or after deduplication; (iii) is
unique by title; (iv) keeps the first occurrence of each title as the
surviving identity; and (v) is pairwise ordered by descending
`(final_score, declared size)`. -/
theorem c7_dedup_and_ranking (hits : List Hit) (sci : List Char) :
    (search_pipeline hits sci).Perm
      ((dedupGo [] (filter_bird_images hits sci)).map (scoreHit sci)) ∧
    (dedupGo [] (filter_bird_images hits sci)).map (scoreHit sci)
      = dedupFGo [] ((filter_bird_images hits sci).map (scoreHit sci)) ∧
    ((search_pipeline hits sci).map (fun r => r.title)).Nodup ∧
    (∀ t : List Char,
      (dedupGo [] (filter_bird_images hits sci)).find?
          (fun r => r.title == t)
        = (filter_bird_images hits sci).find? (fun r => r.title == t)) ∧
    (search_pipeline hits sci).Pairwise (fun u v => keyGE u v = true) := by
  have hperm : (search_pipeline hits sci).Perm
      ((dedupGo [] (filter_bird_images hits sci)).map (scoreHit sci)) := by
    unfold search_pipeline deduplicate_and_score_results
    exact perm_sortRanked _
  refine ⟨hperm, dedup_score_commute sci [] _, ?_,
    fun t => dedupGo_find [] _ t (by simp), ?_⟩
  · have h1 := (dedupGo_titles [] (filter_bird_images hits sci)).1
    have hmapperm := hperm.map (fun r => r.title)
    have hmm : (((dedupGo [] (filter_bird_images hits sci)).map
        (scoreHit sci)).map (fun r => r.title))
        = (dedupGo [] (filter_bird_images hits sci)).map
          (fun r => r.title) := by
      rw [List.map_map]
      rfl
    rw [hmm] at hmapperm
    exact hmapperm.nodup_iff.2 h1
  · unfold search_pipeline deduplicate_and_score_results
    exact pairwise_sortRanked _

/-- Removing another key's entries does not change a lookup. -/
theorem lookup_filter_ne (n k : ℕ) (led : Ledger) (h : ¬(n = k)) :
    (led.filter (fun e => !(e.1 == k))).lookup n = led.lookup n := by
  induction led with
  | nil => rfl
  | cons e rest ih =>
    obtain ⟨k', v⟩ := e
    by_cases hek : k' = k
    · have hb : (n == k) = false := beq_eq_false_iff_ne.2 h
      simp [List.filter_cons, hek, List.lookup, hb, ih]
    · by_cases hnk : n = k'
      · simp [List.filter_cons, beq_eq_false_iff_ne.2 hek, List.lookup,
          hnk]
      · simp [List.filter_cons, beq_eq_false_iff_ne.2 hek, List.lookup,
          beq_eq_false_iff_ne.2 hnk, ih]

/-- A ledger update is immediately visible for its own key. -/
theorem ledgerUpdate_lookup_self (k : ℕ) (v : List Char) (led : Ledger) :
    (ledgerUpdate k v led).lookup k = some v := by
  simp [ledgerUpdate, List.lookup]

/-- A ledger update leaves other keys' lookups unchanged. -/
theorem ledgerUpdate_lookup_ne (k : ℕ) (v : List Char) (led : Ledger)
    (n : ℕ) (h : ¬(n = k)) :
    (ledgerUpdate k v led).lookup n = led.lookup n := by
  have hb : (n == k) = false := beq_eq_false_iff_ne.2 h
  simp [ledgerUpdate, List.lookup, hb, lookup_filter_ne n k led h]

/-- Species whose key never occurs in the remaining list leave that
key's ledger entry untouched for the rest of the loop. -/
theorem main_loop_lookup_frozen (cfg : RunCfg) (fetch : ℕ → List Char)
    (abortAt : Option ℕ) (species : List SpInfo) (n : ℕ) :
    ∀ (i : ℕ) (led : Ledger), n ∉ species.map (fun s => s.name) →
      (main_loop cfg fetch abortAt species i led).ledger.lookup n
        = led.lookup n := by
  induction species with
  | nil => intro i led _; rfl
  | cons sp rest ih =>
    intro i led hn
    simp only [List.map_cons, List.mem_cons, not_or] at hn
    unfold main_loop
    by_cases h1 : abortAt = some i
    · rw [if_pos h1]
    · rw [if_neg h1]
      by_cases h2 : resume_skips cfg.noResume cfg.forceRedownload
          (led.lookup sp.name) sp.filesExist = true
      · rw [if_pos h2]
        exact ih (i + 1) led hn.2
      · rw [if_neg h2]
        show (main_loop cfg fetch abortAt rest (i + 1)
          (ledgerUpdate sp.name (fetch sp.name) led)).ledger.lookup n
          = led.lookup n
        rw [ih (i + 1) (ledgerUpdate sp.name (fetch sp.name) led) hn.2]
        exact ledgerUpdate_lookup_ne sp.name (fetch sp.name) led n hn.1

/-- The periodic saves are exactly the processed (non-skipped)
iterations whose 1-based enumeration index is a multiple of 10 —
independent of every configuration flag. -/
theorem main_loop_cps (cfg : RunCfg) (fetch : ℕ → List Char)
    (abortAt : Option ℕ) (species : List SpInfo) :
    ∀ (i : ℕ) (led : Ledger),
      (main_loop cfg fetch abortAt species i led).cps
        = ((main_loop cfg fetch abortAt species i led).fetched.map
            (fun e => e.1)).filter (fun j => decide ((j + 1) % 10 = 0)) := by
  induction species with
  | nil => intro i led; rfl
  | cons sp rest ih =>
    intro i led
    unfold main_loop
    by_cases h1 : abortAt = some i
    · rw [if_pos h1]
      rfl
    · rw [if_neg h1]
      by_cases h2 : resume_skips cfg.noResume cfg.forceRedownload
          (led.lookup sp.name) sp.filesExist = true
      · rw [if_pos h2]
        exact ih (i + 1) led
      · rw [if_neg h2]
        by_cases h3 : (i + 1) % 10 = 0
        · simp [List.filter_cons, h3, ih (i + 1) _]
        · simp [List.filter_cons, h3, ih (i + 1) _]

/-- Every outcome recorded by the loop survives, with its recorded
value, in the final in-memory ledger that the `finally` block saves —
whether the loop ends normally or is cut short by an exception or
interrupt (`abortAt`). -/
theorem main_loop_durable (cfg : RunCfg) (fetch : ℕ → List Char)
    (abortAt : Option ℕ) (species : List SpInfo) :
    ∀ (i : ℕ) (led : Ledger),
      (species.map (fun s => s.name)).Nodup →
      ∀ e ∈ (main_loop cfg fetch abortAt species i led).fetched,
        (main_loop cfg fetch abortAt species i led).ledger.lookup e.2
          = some (fetch e.2) := by
  induction species with
  | nil =>
    intro i led _ e he
    simp [main_loop] at he
  | cons sp rest ih =>
    intro i led hnodup e he
    simp only [List.map_cons, List.nodup_cons] at hnodup
    unfold main_loop at he ⊢
    by_cases h1 : abortAt = some i
    · rw [if_pos h1] at he ⊢
      simp at he
    · rw [if_neg h1] at he ⊢
      by_cases h2 : resume_skips cfg.noResume cfg.forceRedownload
          (led.lookup sp.name) sp.filesExist = true
      · rw [if_pos h2] at he ⊢
        exact ih (i + 1) led hnodup.2 e he
      · rw [if_neg h2] at he ⊢
        have he2 : e ∈ (i, sp.name) :: (main_loop cfg fetch abortAt rest
            (i + 1) (ledgerUpdate sp.name (fetch sp.name) led)).fetched :=
          he
        rcases List.mem_cons.1 he2 with rfl | he3
        · show (main_loop cfg fetch abortAt rest (i + 1)
            (ledgerUpdate sp.name (fetch sp.name) led)).ledger.lookup
              sp.name = some (fetch sp.name)
          rw [main_loop_lookup_frozen cfg fetch abortAt rest sp.name
            (i + 1) (ledgerUpdate sp.name (fetch sp.name) led) hnodup.1]
          exact ledgerUpdate_lookup_self sp.name (fetch sp.name) led
        · exact ih (i + 1) (ledgerUpdate sp.name (fetch sp.name) led)
            hnodup.2 e he3

/-- C8 counterexample: in a 30-species resumed run where only the
species at enumeration index 19 is skipped (ledger entry present,
files on disk), the periodic saves fire only after iterations 9 and
29 — so 19 species (indices 10–18 and 20–29) are processed after the
first checkpoint before the next one fires, refuting "checkpointed
after every 10 processed species"; no configuration flag changes this
cadence. -/
theorem c8_counterexample :
    (main_loop ⟨false, false⟩ (fun _ => ("f" : String).toList) none
        ((List.range 30).map (fun k => ⟨k, decide (k = 19)⟩)) 0
        [(19, ("x" : String).toList)]).cps = [9, 29] ∧
    ((main_loop ⟨false, false⟩ (fun _ => ("f" : String).toList) none
        ((List.range 30).map (fun k => ⟨k, decide (k = 19)⟩)) 0
        [(19, ("x" : String).toList)]).fetched.filter
          (fun e => decide (9 < e.1) && decide (e.1 ≤ 29))).length = 19 ∧
    10 < 19 := by
  decide

/-- C8 (amended): the ledger is saved mid-run exactly after those
processed (non-skipped) species whose 1-based enumeration index —
counting skipped species — is a multiple of the hardcoded 10 (no flag
configures this), and the `finally` block saves the in-memory ledger
unconditionally at normal completion, on unhandled exceptions and on
interrupt, so (for distinct species keys) every outcome recorded
before termination is present in the final save with its recorded
value. -/
theorem c8_checkpoint_cadence_durability (cfg : RunCfg)
    (fetch : ℕ → List Char) (abortAt : Option ℕ) (species : List SpInfo)
    (led : Ledger) (hnodup : (species.map (fun s => s.name)).Nodup) :
    (main_loop cfg fetch abortAt species 0 led).cps
      = ((main_loop cfg fetch abortAt species 0 led).fetched.map
          (fun e => e.1)).filter (fun j => decide ((j + 1) % 10 = 0)) ∧
    ∀ e ∈ (main_loop cfg fetch abortAt species 0 led).fetched,
      (main_loop cfg fetch abortAt species 0 led).ledger.lookup e.2
        = some (fetch e.2) :=
  ⟨main_loop_cps cfg fetch abortAt species 0 led,
    main_loop_durable cfg fetch abortAt species 0 led hnodup⟩

/-- Witness for `c8_checkpoint_cadence_durability`: a three-species run
interrupted while processing the third species. -/
theorem c8_checkpoint_cadence_durability_witness :
    (([⟨5, false⟩, ⟨7, false⟩, ⟨9, false⟩] : List SpInfo).map
      (fun s => s.name)).Nodup ∧
    ((main_loop ⟨false, false⟩ (fun n => if n = 5 then
        ("a" : String).toList else []) (some 2)
        [⟨5, false⟩, ⟨7, false⟩, ⟨9, false⟩] 0 []).cps
      = ((main_loop ⟨false, false⟩ (fun n => if n = 5 then
          ("a" : String).toList else []) (some 2)
          [⟨5, false⟩, ⟨7, false⟩, ⟨9, false⟩] 0 []).fetched.map
            (fun e => e.1)).filter (fun j => decide ((j + 1) % 10 = 0)) ∧
      ∀ e ∈ (main_loop ⟨false, false⟩ (fun n => if n = 5 then
          ("a" : String).toList else []) (some 2)
          [⟨5, false⟩, ⟨7, false⟩, ⟨9, false⟩] 0 []).fetched,
        (main_loop ⟨false, false⟩ (fun n => if n = 5 then
          ("a" : String).toList else []) (some 2)
          [⟨5, false⟩, ⟨7, false⟩, ⟨9, false⟩] 0 []).ledger.lookup e.2
          = some ((fun n => if n = 5 then ("a" : String).toList else [])
              e.2)) :=
  ⟨by decide,
    c8_checkpoint_cadence_durability ⟨false, false⟩
      (fun n => if n = 5 then ("a" : String).toList else []) (some 2)
      [⟨5, false⟩, ⟨7, false⟩, ⟨9, false⟩] [] (by decide)⟩
